import Mathlib

/-!
# pydrobert-kaldi: the NumpyVector copy-in / copy-out bridge

A shallow embedding of `src/pydrobert/kaldi/vector.cpp`
(`NumpyVector<Real>::SetData` and `NumpyVector<Real>::ReadDataInto`).

* A buffer of `Real` values is a `List α`; element `i` of the buffer is
  entry `i` of the list, and the length of the list is how many elements the
  buffer holds.
* `kaldi::MatrixIndexT` is a signed 32-bit integer, embedded as `Int`;
  `InIndexRange` is the range of that type.
* `size_t` is unsigned 64-bit: `toSizeT` and `byteCount` reduce modulo `2^64`.
* A call either ends in a `Fault` (the C++ run is aborted or undefined) or
  returns an `Outcome`: the object after the call, the buffer of the caller after
  the call, and the byte counts of the `memcpy` calls that were issued.
-/

namespace PydrobertKaldi

deriving instance DecidableEq for Except

/-- Ways a call can end without a result. -/
inductive Fault where
  /-- Raised when `Resize` was asked for a negative dimension (Kaldi aborts). -/
  | negativeDim
  /-- Raised when a `memcpy` would touch an element outside one of its two buffers. -/
  | outOfRange
  /-- Raised on a `memcpy` byte count that is not a whole number of elements. -/
  | tornElement
  deriving DecidableEq, Repr

/-- The object state of a `NumpyVector<Real>`: the two members it inherits
from `kaldi::Vector<Real>`, the owned storage `data_` and the stored
length `dim_`. -/
structure NumpyVector (α : Type) where
  data_ : List α
  dim_ : Int
  deriving DecidableEq, Repr

/-- What a call leaves behind. -/
structure Outcome (α : Type) where
  /-- the object after the call -/
  vec : NumpyVector α
  /-- the caller-supplied buffer after the call -/
  buf : List α
  /-- byte counts of the `memcpy` calls issued, oldest first -/
  copies : List Nat
  deriving DecidableEq, Repr

/-- The values of `kaldi::MatrixIndexT` (a signed 32-bit integer). -/
def InIndexRange (i : Int) : Prop := -(2 : Int) ^ 31 ≤ i ∧ i < (2 : Int) ^ 31

instance (i : Int) : Decidable (InIndexRange i) := by
  unfold InIndexRange; infer_instance

/-- The data-model invariant: the stored length equals the number of
elements addressable in the owned storage. -/
def LengthInv {α : Type} (v : NumpyVector α) : Prop := v.dim_ = (v.data_.length : Int)

instance {α : Type} (v : NumpyVector α) : Decidable (LengthInv v) := by
  unfold LengthInv; infer_instance

/-- Modelled from the spec: `kaldi::Vector<Real>::Dim()`, declared in the
Kaldi library; it exposes the stored length. -/
def Dim {α : Type} (v : NumpyVector α) : Int := v.dim_

/-- Modelled from the spec: `kaldi::Vector<Real>::Data()`, declared in the
Kaldi library; it exposes the owned storage. -/
def Data {α : Type} (v : NumpyVector α) : List α := v.data_

/-- Modelled from the spec: `kaldi::Vector<Real>::Resize(dim, kUndefined)`
of the Kaldi library: "reallocate storage to the requested length without
initializing contents". The fresh storage holds whatever the
allocator left there, given by `junk`; no storage has a negative length, and
Kaldi aborts on one. -/
def Resize {α : Type} (_v : NumpyVector α) (dim : Int) (junk : Nat → α) :
    Except Fault (NumpyVector α) :=
  if dim < 0 then .error .negativeDim
  else .ok { data_ := (List.range dim.toNat).map junk, dim_ := dim }

/-- Conversion of a `MatrixIndexT` to `size_t` (value modulo `2^64`). -/
def toSizeT (i : Int) : Nat := (i % (2 : Int) ^ 64).toNat

/-- The expression `len * sizeof(Real)` of both functions: `len` is converted
to `size_t` and the product is taken in 64-bit unsigned arithmetic. -/
def byteCount (len : Int) (sizeofReal : Nat) : Nat :=
  (toSizeT len * (sizeofReal % 2 ^ 64)) % 2 ^ 64

/-- Modelled from the spec: `std::memcpy(dst, src, count)` of the C library,
a "direct byte-for-byte transfer of a contiguous numeric range", on buffers
whose elements are `sizeofReal` bytes each. The first `count / sizeofReal`
elements of `dst` are replaced by those of `src`; the rest of `dst` is kept.
A count of zero copies nothing. Touching an element past the end of either
buffer is a fault. -/
def memcpy {α : Type} (dst src : List α) (count sizeofReal : Nat) :
    Except Fault (List α) :=
  if sizeofReal = 0 ∨ count % sizeofReal ≠ 0 then .error .tornElement
  else if count / sizeofReal ≤ dst.length ∧ count / sizeofReal ≤ src.length then
    .ok (src.take (count / sizeofReal) ++ dst.drop (count / sizeofReal))
  else .error .outOfRange

/-- Embedding of `NumpyVector<Real>::SetData(vec_in, len)`, vector.cpp lines 3-10:
resize when the stored length differs from `len`, then copy
`len * sizeof(Real)` bytes from `vec_in` into the owned storage. -/
def SetData {α : Type} (v : NumpyVector α) (sizeofReal : Nat) (junk : Nat → α)
    (vec_in : List α) (len : Int) : Except Fault (Outcome α) :=
  match (if Dim v ≠ len then Resize v len junk else .ok v) with
  | .error e => .error e
  | .ok v1 =>
    match memcpy (Data v1) vec_in (byteCount len sizeofReal) sizeofReal with
    | .error e => .error e
    | .ok d =>
      .ok { vec := { v1 with data_ := d }, buf := vec_in,
            copies := [byteCount len sizeofReal] }

/-- Embedding of `NumpyVector<Real>::ReadDataInto(len, vec_inout)`, vector.cpp
lines 12-19. The method is `const`; the object is returned as it was
received. -/
def ReadDataInto {α : Type} (v : NumpyVector α) (sizeofReal : Nat)
    (len : Int) (vec_inout : List α) : Except Fault (Bool × Outcome α) :=
  if Dim v ≠ len then .ok (false, { vec := v, buf := vec_inout, copies := [] })
  else if len = 0 then .ok (true, { vec := v, buf := vec_inout, copies := [] })
  else
    match memcpy vec_inout (Data v) (byteCount len sizeofReal) sizeofReal with
    | .error e => .error e
    | .ok out => .ok (true, { vec := v, buf := out,
                               copies := [byteCount len sizeofReal] })

/-! ## Concrete runs -/

example : SetData (⟨[7, 8, 9], 3⟩ : NumpyVector Nat) 4 (fun _ => 0) [1, 2] 2
    = .ok ⟨⟨[1, 2], 2⟩, [1, 2], [8]⟩ := by decide

example : ReadDataInto (⟨[7, 8, 9], 3⟩ : NumpyVector Nat) 8 3 [1, 2, 3, 4]
    = .ok (true, ⟨⟨[7, 8, 9], 3⟩, [7, 8, 9, 4], [24]⟩) := by decide

example : SetData (⟨[], 0⟩ : NumpyVector Nat) 4 (fun _ => 0) [] 0
    = .ok ⟨⟨[], 0⟩, [], [0]⟩ := by decide

example : SetData (⟨[], 0⟩ : NumpyVector Nat) 4 (fun _ => 0) [] (-1)
    = .error .negativeDim := by decide

/-! ## Arithmetic of the byte count -/

theorem toSizeT_natCast (n : Nat) (h : n < 2 ^ 64) : toSizeT (n : Int) = n := by
  unfold toSizeT
  have h2 : ((n : Int) % (2 : Int) ^ 64) = (n : Int) :=
    Int.emod_eq_of_lt (Int.ofNat_nonneg n) (by exact_mod_cast h)
  rw [h2]
  exact Int.toNat_ofNat n

theorem byteCount_natCast (n sz : Nat) (hn : n < 2 ^ 31) (hsz : sz = 4 ∨ sz = 8) :
    byteCount (n : Int) sz = n * sz := by
  unfold byteCount
  rw [toSizeT_natCast n (by omega)]
  rcases hsz with rfl | rfl
  · rw [Nat.mod_eq_of_lt (by norm_num : 4 < 2 ^ 64), Nat.mod_eq_of_lt (by omega)]
  · rw [Nat.mod_eq_of_lt (by norm_num : 8 < 2 ^ 64), Nat.mod_eq_of_lt (by omega)]

theorem inIndexRange_natCast {n : Nat} (h : InIndexRange (n : Int)) : n < 2 ^ 31 := by
  have h2 := h.2
  exact_mod_cast h2

/-! ## The bulk copy -/

theorem memcpy_whole {α : Type} (dst src : List α) (n sz : Nat) (hsz : 0 < sz)
    (hd : n ≤ dst.length) (hs : n ≤ src.length) :
    memcpy dst src (n * sz) sz = .ok (src.take n ++ dst.drop n) := by
  unfold memcpy
  have h1 : n * sz % sz = 0 := Nat.mul_mod_left n sz
  have h2 : n * sz / sz = n := Nat.mul_div_cancel n hsz
  have h3 : ¬ (sz = 0 ∨ n * sz % sz ≠ 0) := by omega
  rw [if_neg h3, h2, if_pos ⟨hd, hs⟩]

theorem memcpy_length {α : Type} (dst src d : List α) (count sz : Nat)
    (h : memcpy dst src count sz = .ok d) : d.length = dst.length := by
  unfold memcpy at h
  split at h
  · cases h
  · split at h
    · rename_i hb
      cases h
      simp only [List.length_append, List.length_take, List.length_drop]
      omega
    · cases h

/-! ## Closed forms of the two operations -/

theorem sz_pos {sz : Nat} (hsz : sz = 4 ∨ sz = 8) : 0 < sz := by omega

theorem resize_natCast {α : Type} (v : NumpyVector α) (n : Nat) (junk : Nat → α) :
    Resize v (n : Int) junk = .ok ⟨(List.range n).map junk, (n : Int)⟩ := by
  unfold Resize
  rw [if_neg (by omega)]
  simp

/-- On a well-formed object, a length in range and a source of at least `n`
elements, `SetData` returns, the object holds the first `n` source elements
and one `memcpy` of `n * sz` bytes was issued. -/
theorem setData_eq {α : Type} (v : NumpyVector α) (sz : Nat) (junk : Nat → α)
    (D : List α) (n : Nat) (hv : LengthInv v) (hsz : sz = 4 ∨ sz = 8)
    (hn : n < 2 ^ 31) (hD : n ≤ D.length) :
    SetData v sz junk D (n : Int) = .ok ⟨⟨D.take n, (n : Int)⟩, D, [n * sz]⟩ := by
  unfold SetData
  rw [byteCount_natCast n sz hn hsz]
  by_cases hdim : Dim v = (n : Int)
  · have hlen : v.data_.length = n := by
      unfold LengthInv at hv
      unfold Dim at hdim
      omega
    rw [if_neg (by simpa using hdim)]
    simp only [Data]
    rw [memcpy_whole v.data_ D n sz (sz_pos hsz) (by omega) hD]
    have hdrop : v.data_.drop n = [] := List.drop_eq_nil_of_le (by omega)
    have hd : v.dim_ = (n : Int) := hdim
    simp [hdrop, hd]
  · rw [if_pos hdim, resize_natCast]
    simp only [Data]
    rw [memcpy_whole _ D n sz (sz_pos hsz) (by simp) hD]
    have hdrop : ((List.range n).map junk).drop n = [] :=
      List.drop_eq_nil_of_le (by simp)
    simp [hdrop]

/-- On a well-formed object whose length is `n > 0` and a destination of at
least `n` elements, `ReadDataInto` returns true, the destination starts with
the elements of the object and keeps its tail, and one `memcpy` was issued. -/
theorem readDataInto_eq {α : Type} (v : NumpyVector α) (sz : Nat)
    (out : List α) (n : Nat) (hv : LengthInv v) (hsz : sz = 4 ∨ sz = 8)
    (hn : n < 2 ^ 31) (hdim : Dim v = (n : Int)) (hpos : n ≠ 0)
    (hout : n ≤ out.length) :
    ReadDataInto v sz (n : Int) out
      = .ok (true, ⟨v, v.data_ ++ out.drop n, [n * sz]⟩) := by
  have hlen : v.data_.length = n := by
    unfold LengthInv at hv
    unfold Dim at hdim
    omega
  unfold ReadDataInto
  rw [if_neg (by simpa using hdim), if_neg (by exact_mod_cast hpos)]
  rw [byteCount_natCast n sz hn hsz]
  simp only [Data]
  rw [memcpy_whole out v.data_ n sz (sz_pos hsz) hout (by omega)]
  have htake : v.data_.take n = v.data_ := List.take_of_length_le (by omega)
  simp [htake]

/-- When the requested length differs from the stored one, `ReadDataInto`
returns false and hands everything back untouched. -/
theorem readDataInto_mismatch {α : Type} (v : NumpyVector α) (sz : Nat)
    (len : Int) (out : List α) (h : Dim v ≠ len) :
    ReadDataInto v sz len out = .ok (false, ⟨v, out, []⟩) := by
  unfold ReadDataInto
  rw [if_pos h]

/-- Whenever `SetData` returns, one `memcpy` was issued, with the byte count
`len * sizeof(Real)`, and the owned storage is as long as the stored length
if it was so before. -/
theorem setData_ok_inv {α : Type} (v : NumpyVector α) (sz : Nat) (junk : Nat → α)
    (D : List α) (len : Int) (o : Outcome α) (hv : LengthInv v)
    (h : SetData v sz junk D len = .ok o) :
    LengthInv o.vec ∧ o.copies = [byteCount len sz] := by
  unfold SetData at h
  by_cases hdim : Dim v = len
  · rw [if_neg (by simpa using hdim)] at h
    simp only [] at h
    split at h
    · cases h
    · rename_i d hd
      cases h
      have hl := memcpy_length _ _ _ _ _ hd
      refine ⟨?_, rfl⟩
      unfold LengthInv at hv ⊢
      simp only [Data] at hl
      simp only [hl]
      exact hv
  · rw [if_pos hdim] at h
    unfold Resize at h
    by_cases hneg : len < 0
    · rw [if_pos hneg] at h
      cases h
    · rw [if_neg hneg] at h
      simp only [] at h
      split at h
      · cases h
      · rename_i d hd
        cases h
        have hl := memcpy_length _ _ _ _ _ hd
        refine ⟨?_, rfl⟩
        unfold LengthInv
        simp only [Data] at hl
        simp only [hl]
        simp
        omega

/-- Whenever `SetData` returns, it issued exactly one `memcpy`, with the byte
count `len * sizeof(Real)`. -/
theorem setData_ok_copies {α : Type} (v : NumpyVector α) (sz : Nat) (junk : Nat → α)
    (D : List α) (len : Int) (o : Outcome α)
    (h : SetData v sz junk D len = .ok o) : o.copies = [byteCount len sz] := by
  unfold SetData at h
  split at h
  · cases h
  · split at h
    · cases h
    · cases h
      rfl

/-- Whenever `ReadDataInto` returns, the object it hands back is the one it
received. -/
theorem readDataInto_ok_vec {α : Type} (v : NumpyVector α) (sz : Nat) (len : Int)
    (out : List α) (r : Bool × Outcome α)
    (h : ReadDataInto v sz len out = .ok r) : r.2.vec = v := by
  unfold ReadDataInto at h
  split at h
  · cases h
    rfl
  · split at h
    · cases h
      rfl
    · split at h
      · cases h
      · cases h
        rfl

/-- On a well-formed object, a length in the index range and a destination
that is long enough whenever the lengths agree, `ReadDataInto` returns, and
every `memcpy` it issued moved exactly as many elements as the object
holds. -/
theorem readDataInto_total {α : Type} (v : NumpyVector α) (sz : Nat) (len : Int)
    (out : List α) (hv : LengthInv v) (hsz : sz = 4 ∨ sz = 8)
    (hlen : InIndexRange len) (hout : Dim v = len → len ≤ (out.length : Int)) :
    ∃ r, ReadDataInto v sz len out = .ok r
      ∧ ∀ c ∈ r.2.copies, c = (Data v).length * sz ∧ (Data v).length ≤ out.length := by
  by_cases hdim : Dim v = len
  · have hlenv : (v.data_.length : Int) = len := by
      unfold LengthInv at hv
      unfold Dim at hdim
      omega
    have ho := hout hdim
    subst hlenv
    have hn2 := inIndexRange_natCast hlen
    by_cases h0 : v.data_.length = 0
    · refine ⟨(true, ⟨v, out, []⟩), ?_, ?_⟩
      · unfold ReadDataInto
        rw [if_neg (by simpa using hdim), if_pos (by exact_mod_cast h0)]
      · simp
    · refine ⟨_, readDataInto_eq v sz out _ hv hsz hn2 hdim h0 (by omega), ?_⟩
      intro c hc
      simp at hc
      subst hc
      exact ⟨rfl, by simp only [Data]; omega⟩
  · refine ⟨_, readDataInto_mismatch v sz len out hdim, ?_⟩
    simp

/-! ## Round trip and postconditions -/

/-- C1 (round trip): for every length `n ≥ 0` in the index range, every data
sequence `D` of length `n`, every well-formed prior object, whatever the
resize leaves in fresh storage, and every destination `out` of at least `n`
elements, `SetData(D, n)` returns and the following `ReadDataInto(n, out)`
returns true and leaves the first `n` elements of the destination equal to
`D` (the destination keeps its length). -/
theorem C1_roundtrip {α : Type} (v : NumpyVector α) (sz : Nat) (junk : Nat → α)
    (D out : List α) (n : Nat) (hv : LengthInv v) (hsz : sz = 4 ∨ sz = 8)
    (hn : InIndexRange (n : Int)) (hD : D.length = n) (hout : n ≤ out.length) :
    ∃ o r, SetData v sz junk D (n : Int) = .ok o
      ∧ ReadDataInto o.vec sz (n : Int) out = .ok (true, r)
      ∧ r.buf.take n = D
      ∧ r.buf.length = out.length := by
  have hn2 := inIndexRange_natCast hn
  have htake : D.take n = D := List.take_of_length_le (by omega)
  have hset := setData_eq v sz junk D n hv hsz hn2 (by omega)
  by_cases h0 : n = 0
  · subst h0
    have hD0 : D = [] := List.length_eq_zero.mp hD
    refine ⟨_, ⟨⟨D.take 0, ((0 : Nat) : Int)⟩, out, []⟩, hset, ?_, ?_, rfl⟩
    · simp [ReadDataInto, Dim]
    · simp [hD0]
  · refine ⟨_, ⟨⟨D.take n, (n : Int)⟩, D.take n ++ out.drop n, [n * sz]⟩, hset, ?_, ?_, ?_⟩
    · have hv2 : LengthInv (⟨D.take n, (n : Int)⟩ : NumpyVector α) := by
        simp [LengthInv, htake, hD]
      exact readDataInto_eq ⟨D.take n, (n : Int)⟩ sz out n hv2 hsz hn2 rfl h0 hout
    · simp [htake, hD]
    · simp [htake, hD]
      omega

theorem C1_roundtrip_witness :
    ∃ o r, SetData (⟨[7, 8, 9], 3⟩ : NumpyVector Nat) 4 (fun _ => 0) [1, 2] ((2 : Nat) : Int)
        = .ok o
      ∧ ReadDataInto o.vec 4 ((2 : Nat) : Int) [5, 5, 5] = .ok (true, r)
      ∧ r.buf.take 2 = [1, 2]
      ∧ r.buf.length = [5, 5, 5].length :=
  C1_roundtrip (⟨[7, 8, 9], 3⟩ : NumpyVector Nat) 4 (fun _ => 0) [1, 2] [5, 5, 5] 2
    (by decide) (by decide) (by decide) (by decide) (by decide)

/-- C2 (failure is atomic): for every object and every requested length that
differs from the stored length, `ReadDataInto` returns false, the destination
is returned exactly as it was received, and no `memcpy` was issued. -/
theorem C2_read_mismatch_atomic {α : Type} (v : NumpyVector α) (sz : Nat)
    (len : Int) (out : List α) (h : Dim v ≠ len) :
    ReadDataInto v sz len out = .ok (false, ⟨v, out, []⟩) := by
  unfold ReadDataInto
  rw [if_pos h]

theorem C2_read_mismatch_atomic_witness :
    Dim (⟨[7, 8, 9], 3⟩ : NumpyVector Nat) ≠ 2
      ∧ ReadDataInto (⟨[7, 8, 9], 3⟩ : NumpyVector Nat) 4 2 [5, 5]
          = .ok (false, ⟨⟨[7, 8, 9], 3⟩, [5, 5], []⟩) :=
  ⟨by decide, C2_read_mismatch_atomic ⟨[7, 8, 9], 3⟩ 4 2 [5, 5] (by decide)⟩

/-- C3 (success postcondition of `ReadDataInto`): for every well-formed
object, every requested length in the index range and every destination
that holds at least that many elements whenever the lengths agree, the call
returns; it returns true exactly when the stored length equals the requested
length; and when they agree at a length `> 0`, element `i` of the destination
equals element `i` of the object for every `i` below the length while every
element at or past the length, and the length of the destination, are
unchanged. -/
theorem C3_read_success {α : Type} (v : NumpyVector α) (sz : Nat) (len : Int)
    (out : List α) (hv : LengthInv v) (hsz : sz = 4 ∨ sz = 8)
    (hlen : InIndexRange len) (hout : Dim v = len → len ≤ (out.length : Int)) :
    ∃ r, ReadDataInto v sz len out = .ok r
      ∧ (r.1 = true ↔ Dim v = len)
      ∧ (Dim v = len → 0 < len →
          (∀ i : Nat, (i : Int) < len → r.2.buf[i]? = (Data v)[i]?)
          ∧ (∀ i : Nat, len ≤ (i : Int) → r.2.buf[i]? = out[i]?)
          ∧ r.2.buf.length = out.length) := by
  by_cases hdim : Dim v = len
  · have hlenv : (v.data_.length : Int) = len := by
      unfold LengthInv at hv
      unfold Dim at hdim
      omega
    have ho := hout hdim
    subst hlenv
    have hn2 := inIndexRange_natCast hlen
    by_cases h0 : v.data_.length = 0
    · refine ⟨(true, ⟨v, out, []⟩), ?_, ?_, ?_⟩
      · unfold ReadDataInto
        rw [if_neg (by simpa using hdim), if_pos (by exact_mod_cast h0)]
      · simp [hdim]
      · intro _ hpos
        omega
    · refine ⟨_, readDataInto_eq v sz out _ hv hsz hn2 hdim h0 (by omega), ?_, ?_⟩
      · simp [hdim]
      · intro _ _
        refine ⟨?_, ?_, ?_⟩
        · intro i hi
          have hi2 : i < v.data_.length := by omega
          simp [Data, List.getElem?_append_left hi2]
        · intro i hi
          have hi2 : v.data_.length ≤ i := by omega
          simp only []
          rw [List.getElem?_append_right hi2, List.getElem?_drop]
          congr 1
          omega
        · simp
          omega
  · refine ⟨_, readDataInto_mismatch v sz len out hdim, ?_, ?_⟩
    · simp [hdim]
    · intro h
      exact absurd h hdim

theorem C3_read_success_witness :
    LengthInv (⟨[7, 8, 9], 3⟩ : NumpyVector Nat) ∧ InIndexRange 3 ∧
    ∃ r, ReadDataInto (⟨[7, 8, 9], 3⟩ : NumpyVector Nat) 8 3 [1, 2, 3, 4] = .ok r
      ∧ (r.1 = true ↔ Dim (⟨[7, 8, 9], 3⟩ : NumpyVector Nat) = 3)
      ∧ (Dim (⟨[7, 8, 9], 3⟩ : NumpyVector Nat) = 3 → (0 : Int) < 3 →
          (∀ i : Nat, (i : Int) < 3 →
            r.2.buf[i]? = (Data (⟨[7, 8, 9], 3⟩ : NumpyVector Nat))[i]?)
          ∧ (∀ i : Nat, (3 : Int) ≤ (i : Int) → r.2.buf[i]? = [1, 2, 3, 4][i]?)
          ∧ r.2.buf.length = [1, 2, 3, 4].length) :=
  ⟨by decide, by decide,
   C3_read_success (⟨[7, 8, 9], 3⟩ : NumpyVector Nat) 8 3 [1, 2, 3, 4]
     (by decide) (by decide) (by decide) (fun _ => by decide)⟩

/-- C4 (postcondition of `SetData`): for every well-formed prior object,
whatever the resize leaves in fresh storage, every length `n ≥ 0` in the
index range and every source of at least `n` elements, `SetData` returns,
the stored length is `n`, the owned storage holds `n` elements, and element
`i` of the object equals element `i` of the source for every `i < n`; the
prior length may or may not be `n`. -/
theorem C4_setData_post {α : Type} (v : NumpyVector α) (sz : Nat) (junk : Nat → α)
    (D : List α) (n : Nat) (hv : LengthInv v) (hsz : sz = 4 ∨ sz = 8)
    (hn : InIndexRange (n : Int)) (hD : n ≤ D.length) :
    ∃ o, SetData v sz junk D (n : Int) = .ok o
      ∧ Dim o.vec = (n : Int)
      ∧ (Data o.vec).length = n
      ∧ ∀ i : Nat, i < n → (Data o.vec)[i]? = D[i]? := by
  refine ⟨_, setData_eq v sz junk D n hv hsz (inIndexRange_natCast hn) hD, rfl, ?_, ?_⟩
  · simp [Data]
    omega
  · intro i hi
    simp [Data, List.getElem?_take, hi]

theorem C4_setData_post_witness :
    (∃ o, SetData (⟨[7, 8, 9], 3⟩ : NumpyVector Nat) 4 (fun _ => 0) [1, 2, 6] ((2 : Nat) : Int)
        = .ok o
      ∧ Dim o.vec = ((2 : Nat) : Int)
      ∧ (Data o.vec).length = 2
      ∧ ∀ i : Nat, i < 2 → (Data o.vec)[i]? = [1, 2, 6][i]?)
    ∧ (∃ o, SetData (⟨[7, 8], 2⟩ : NumpyVector Nat) 4 (fun _ => 0) [1, 2, 6] ((2 : Nat) : Int)
        = .ok o
      ∧ Dim o.vec = ((2 : Nat) : Int)
      ∧ (Data o.vec).length = 2
      ∧ ∀ i : Nat, i < 2 → (Data o.vec)[i]? = [1, 2, 6][i]?) :=
  ⟨C4_setData_post (⟨[7, 8, 9], 3⟩ : NumpyVector Nat) 4 (fun _ => 0) [1, 2, 6] 2
     (by decide) (by decide) (by decide) (by decide),
   C4_setData_post (⟨[7, 8], 2⟩ : NumpyVector Nat) 4 (fun _ => 0) [1, 2, 6] 2
     (by decide) (by decide) (by decide) (by decide)⟩

/-- C5 (no carryover): for every two well-formed prior objects (shorter,
longer or equal in length), whatever each resize leaves in fresh storage,
`SetData(D, n)` returns the same outcome, namely the object made of the first
`n` elements of `D` with stored length `n`; and `SetData(D1, n1)` followed by
`SetData(D, n)` returns the same object as `SetData(D, n)` alone. -/
theorem C5_no_carryover {α : Type} (v1 v2 : NumpyVector α) (sz : Nat)
    (junk1 junk2 : Nat → α) (D D1 : List α) (n n1 : Nat)
    (hv1 : LengthInv v1) (hv2 : LengthInv v2) (hsz : sz = 4 ∨ sz = 8)
    (hn : InIndexRange (n : Int)) (hD : n ≤ D.length)
    (hn1 : InIndexRange (n1 : Int)) (hD1 : n1 ≤ D1.length) :
    SetData v1 sz junk1 D (n : Int) = SetData v2 sz junk2 D (n : Int)
      ∧ (∃ o, SetData v1 sz junk1 D (n : Int) = .ok o
          ∧ o.vec = ⟨D.take n, (n : Int)⟩)
      ∧ (∃ o1 o2, SetData v1 sz junk1 D1 (n1 : Int) = .ok o1
          ∧ SetData o1.vec sz junk2 D (n : Int) = .ok o2
          ∧ SetData v1 sz junk1 D (n : Int) = .ok o2) := by
  have hn2 := inIndexRange_natCast hn
  have hn12 := inIndexRange_natCast hn1
  have e1 := setData_eq v1 sz junk1 D n hv1 hsz hn2 hD
  have e2 := setData_eq v2 sz junk2 D n hv2 hsz hn2 hD
  have e3 := setData_eq v1 sz junk1 D1 n1 hv1 hsz hn12 hD1
  refine ⟨e1.trans e2.symm, ⟨_, e1, rfl⟩, ⟨_, _, e3, ?_, e1⟩⟩
  have hv3 : LengthInv (⟨D1.take n1, (n1 : Int)⟩ : NumpyVector α) := by
    simp [LengthInv]
    omega
  exact setData_eq _ sz junk2 D n hv3 hsz hn2 hD

theorem C5_no_carryover_witness :
    SetData (⟨[7, 8, 9], 3⟩ : NumpyVector Nat) 4 (fun _ => 0) [1, 2] ((2 : Nat) : Int)
        = SetData (⟨[4], 1⟩ : NumpyVector Nat) 4 (fun i => i + 5) [1, 2] ((2 : Nat) : Int)
      ∧ (∃ o, SetData (⟨[7, 8, 9], 3⟩ : NumpyVector Nat) 4 (fun _ => 0) [1, 2] ((2 : Nat) : Int)
            = .ok o
          ∧ o.vec = ⟨[1, 2].take 2, ((2 : Nat) : Int)⟩)
      ∧ (∃ o1 o2,
          SetData (⟨[7, 8, 9], 3⟩ : NumpyVector Nat) 4 (fun _ => 0) [3, 3, 3, 3] ((4 : Nat) : Int)
            = .ok o1
          ∧ SetData o1.vec 4 (fun i => i + 5) [1, 2] ((2 : Nat) : Int) = .ok o2
          ∧ SetData (⟨[7, 8, 9], 3⟩ : NumpyVector Nat) 4 (fun _ => 0) [1, 2] ((2 : Nat) : Int)
            = .ok o2) :=
  C5_no_carryover (⟨[7, 8, 9], 3⟩ : NumpyVector Nat) ⟨[4], 1⟩ 4 (fun _ => 0) (fun i => i + 5)
    [1, 2] [3, 3, 3, 3] 2 4
    (by decide) (by decide) (by decide) (by decide) (by decide) (by decide) (by decide)

/-! ## Empty read, invariant, bounds, frame, byte count -/

/-- C6 (empty read): for every object whose stored length is 0 and every
destination, `ReadDataInto(0, out)` returns true, hands the destination back
unmodified, and its list of issued `memcpy` calls is empty: the call is
skipped, not made with a zero size. -/
theorem C6_empty_read {α : Type} (v : NumpyVector α) (sz : Nat) (out : List α)
    (h : Dim v = 0) :
    ReadDataInto v sz 0 out = .ok (true, ⟨v, out, []⟩) := by
  unfold ReadDataInto
  rw [if_neg (by simpa using h), if_pos rfl]

theorem C6_empty_read_witness :
    Dim (⟨[], 0⟩ : NumpyVector Nat) = 0
      ∧ ReadDataInto (⟨[], 0⟩ : NumpyVector Nat) 4 0 [5, 5]
          = .ok (true, ⟨⟨[], 0⟩, [5, 5], []⟩) :=
  ⟨by decide, C6_empty_read (⟨[], 0⟩ : NumpyVector Nat) 4 [5, 5] (by decide)⟩

/-- C7 (length invariant): if the stored length equals the number of
elements in the owned storage before the call, then it does so after every
`SetData` and every `ReadDataInto` that returns, for any arguments; and for
`n ≥ 0` in the index range with buffers that are long enough both calls do
return. -/
theorem C7_length_invariant {α : Type} (v : NumpyVector α) (hv : LengthInv v) :
    (∀ (sz : Nat) (junk : Nat → α) (D : List α) (len : Int) (o : Outcome α),
        SetData v sz junk D len = .ok o → LengthInv o.vec)
      ∧ (∀ (sz : Nat) (len : Int) (out : List α) (r : Bool × Outcome α),
        ReadDataInto v sz len out = .ok r → LengthInv r.2.vec)
      ∧ (∀ (sz : Nat) (junk : Nat → α) (D : List α) (n : Nat),
        (sz = 4 ∨ sz = 8) → InIndexRange (n : Int) → n ≤ D.length →
        ∃ o, SetData v sz junk D (n : Int) = .ok o ∧ LengthInv o.vec)
      ∧ (∀ (sz : Nat) (len : Int) (out : List α),
        (sz = 4 ∨ sz = 8) → InIndexRange len →
        (Dim v = len → len ≤ (out.length : Int)) →
        ∃ r, ReadDataInto v sz len out = .ok r ∧ LengthInv r.2.vec) := by
  refine ⟨?_, ?_, ?_, ?_⟩
  · intro sz junk D len o h
    exact (setData_ok_inv v sz junk D len o hv h).1
  · intro sz len out r h
    rw [readDataInto_ok_vec v sz len out r h]
    exact hv
  · intro sz junk D n hsz hn hD
    have e := setData_eq v sz junk D n hv hsz (inIndexRange_natCast hn) hD
    exact ⟨_, e, (setData_ok_inv v sz junk D n _ hv e).1⟩
  · intro sz len out hsz hlen hout
    obtain ⟨r, hr, _⟩ := readDataInto_total v sz len out hv hsz hlen hout
    refine ⟨r, hr, ?_⟩
    rw [readDataInto_ok_vec v sz len out r hr]
    exact hv

theorem C7_length_invariant_witness :
    LengthInv (⟨[7, 8, 9], 3⟩ : NumpyVector Nat)
      ∧ (∃ o, SetData (⟨[7, 8, 9], 3⟩ : NumpyVector Nat) 4 (fun _ => 0) [1, 2] ((2 : Nat) : Int)
            = .ok o ∧ LengthInv o.vec)
      ∧ (∃ r, ReadDataInto (⟨[7, 8, 9], 3⟩ : NumpyVector Nat) 4 3 [5, 5, 5] = .ok r
            ∧ LengthInv r.2.vec) :=
  ⟨by decide,
   (C7_length_invariant (⟨[7, 8, 9], 3⟩ : NumpyVector Nat) (by decide)).2.2.1
     4 (fun _ => 0) [1, 2] 2 (by decide) (by decide) (by decide),
   (C7_length_invariant (⟨[7, 8, 9], 3⟩ : NumpyVector Nat) (by decide)).2.2.2
     4 3 [5, 5, 5] (by decide) (by decide) (fun _ => by decide)⟩

/-- C8 (copy bounds): for a well-formed object and a caller buffer of at
least `len` elements, neither `SetData` nor `ReadDataInto` ends in a fault
(no element outside a buffer is touched), and every `memcpy` they issue
moves a whole number of elements that equals the stored length and the size
of the owned storage at the moment of the copy and does not exceed the size
of the buffer of the caller. -/
theorem C8_copy_bounds {α : Type} (v : NumpyVector α) (sz : Nat) (junk : Nat → α)
    (buf : List α) (n : Nat) (len : Int) (hv : LengthInv v) (hsz : sz = 4 ∨ sz = 8)
    (hn : InIndexRange (n : Int)) (hbuf : n ≤ buf.length)
    (hlen : InIndexRange len) (hbuf2 : len ≤ (buf.length : Int)) :
    (∃ o, SetData v sz junk buf (n : Int) = .ok o
        ∧ ∀ c ∈ o.copies, c % sz = 0 ∧ c / sz = (Data o.vec).length
            ∧ ((c / sz : Nat) : Int) = Dim o.vec ∧ c / sz ≤ buf.length)
      ∧ (∃ r, ReadDataInto v sz len buf = .ok r
        ∧ ∀ c ∈ r.2.copies, c % sz = 0 ∧ c / sz = (Data v).length
            ∧ ((c / sz : Nat) : Int) = Dim v ∧ c / sz ≤ buf.length) := by
  have hpos := sz_pos hsz
  constructor
  · refine ⟨_, setData_eq v sz junk buf n hv hsz (inIndexRange_natCast hn) hbuf, ?_⟩
    intro c hc
    simp at hc
    subst hc
    have h2 : n * sz / sz = n := Nat.mul_div_cancel n hpos
    refine ⟨Nat.mul_mod_left n sz, ?_, ?_, ?_⟩
    · simp [Data, h2]
      omega
    · simp [Dim, h2]
    · omega
  · obtain ⟨r, hr, hc⟩ := readDataInto_total v sz len buf hv hsz hlen (fun _ => hbuf2)
    refine ⟨r, hr, ?_⟩
    intro c hmem
    obtain ⟨h1, h2⟩ := hc c hmem
    subst h1
    have h3 : (Data v).length * sz / sz = (Data v).length := Nat.mul_div_cancel _ hpos
    refine ⟨Nat.mul_mod_left _ sz, h3, ?_, ?_⟩
    · rw [h3]
      unfold LengthInv at hv
      simp only [Data, Dim]
      omega
    · omega

theorem C8_copy_bounds_witness :
    (∃ o, SetData (⟨[7, 8, 9], 3⟩ : NumpyVector Nat) 8 (fun _ => 0) [1, 2, 6] ((2 : Nat) : Int)
          = .ok o
        ∧ ∀ c ∈ o.copies, c % 8 = 0 ∧ c / 8 = (Data o.vec).length
            ∧ ((c / 8 : Nat) : Int) = Dim o.vec ∧ c / 8 ≤ [1, 2, 6].length)
      ∧ (∃ r, ReadDataInto (⟨[7, 8, 9], 3⟩ : NumpyVector Nat) 8 3 [1, 2, 6] = .ok r
        ∧ ∀ c ∈ r.2.copies, c % 8 = 0
            ∧ c / 8 = (Data (⟨[7, 8, 9], 3⟩ : NumpyVector Nat)).length
            ∧ ((c / 8 : Nat) : Int) = Dim (⟨[7, 8, 9], 3⟩ : NumpyVector Nat)
            ∧ c / 8 ≤ [1, 2, 6].length) :=
  C8_copy_bounds (⟨[7, 8, 9], 3⟩ : NumpyVector Nat) 8 (fun _ => 0) [1, 2, 6] 2 3
    (by decide) (by decide) (by decide) (by decide) (by decide) (by decide)

/-- C9 (`ReadDataInto` is read-only on the object): for every object, every
length argument and every destination, a `ReadDataInto` that returns, with
true or with false, hands back the object with the same stored length and
the same elements; so a further read of the object it hands back behaves as
a read of the original; and on a well-formed object with a destination that
is long enough the call does return. -/
theorem C9_read_only {α : Type} (v : NumpyVector α) (sz : Nat) (len : Int)
    (out : List α) :
    (∀ r, ReadDataInto v sz len out = .ok r →
        r.2.vec = v ∧ Dim r.2.vec = Dim v ∧ Data r.2.vec = Data v
          ∧ ∀ out2 : List α,
              ReadDataInto r.2.vec sz len out2 = ReadDataInto v sz len out2)
      ∧ (LengthInv v → (sz = 4 ∨ sz = 8) → InIndexRange len →
          (Dim v = len → len ≤ (out.length : Int)) →
          ∃ r, ReadDataInto v sz len out = .ok r ∧ r.2.vec = v) := by
  constructor
  · intro r h
    have e := readDataInto_ok_vec v sz len out r h
    refine ⟨e, ?_, ?_, ?_⟩
    · rw [e]
    · rw [e]
    · intro out2
      rw [e]
  · intro hv hsz hlen hout
    obtain ⟨r, hr, _⟩ := readDataInto_total v sz len out hv hsz hlen hout
    exact ⟨r, hr, readDataInto_ok_vec v sz len out r hr⟩

theorem C9_read_only_witness :
    ∃ r, ReadDataInto (⟨[7, 8, 9], 3⟩ : NumpyVector Nat) 4 3 [5, 5, 5] = .ok r
      ∧ r.2.vec = ⟨[7, 8, 9], 3⟩ :=
  (C9_read_only (⟨[7, 8, 9], 3⟩ : NumpyVector Nat) 4 3 [5, 5, 5]).2
    (by decide) (by decide) (by decide) (fun _ => by decide)

/-- C10 (the byte count does not wrap): for every `len` with
`0 ≤ len ≤ 2^31 - 1` and every element size 4 or 8, the byte count
`len * sizeof(Real)` computed modulo `2^64` equals the exact product, it is
the count handed to `memcpy` by `SetData` and by `ReadDataInto`, and a
`memcpy` of that count between buffers of at least `len` elements replaces
exactly the first `len` elements. -/
theorem C10_byteCount_exact (len : Int) (sz : Nat) (h0 : 0 ≤ len)
    (h1 : len ≤ 2 ^ 31 - 1) (hsz : sz = 4 ∨ sz = 8) :
    (byteCount len sz : Int) = len * (sz : Int)
      ∧ byteCount len sz / sz = len.toNat
      ∧ byteCount len sz % sz = 0
      ∧ (∀ (α : Type) (v : NumpyVector α) (junk : Nat → α) (D : List α) (o : Outcome α),
          SetData v sz junk D len = .ok o → o.copies = [byteCount len sz])
      ∧ (∀ (α : Type) (v : NumpyVector α) (out : List α) (r : Bool × Outcome α),
          ReadDataInto v sz len out = .ok r → ∀ c ∈ r.2.copies, c = byteCount len sz)
      ∧ (∀ (α : Type) (dst src : List α),
          len.toNat ≤ dst.length → len.toNat ≤ src.length →
          memcpy dst src (byteCount len sz) sz
            = .ok (src.take len.toNat ++ dst.drop len.toNat)) := by
  obtain ⟨n, rfl⟩ := Int.eq_ofNat_of_zero_le h0
  have hn : n < 2 ^ 31 := by omega
  have hb := byteCount_natCast n sz hn hsz
  have hpos := sz_pos hsz
  rw [hb]
  refine ⟨by push_cast; rfl, ?_, Nat.mul_mod_left n sz, ?_, ?_, ?_⟩
  · rw [Nat.mul_div_cancel n hpos]
    simp
  · intro α v junk D o h
    rw [setData_ok_copies v sz junk D _ o h, hb]
  · intro α v out r h c hc
    unfold ReadDataInto at h
    split at h
    · cases h
      simp at hc
    · split at h
      · cases h
        simp at hc
      · split at h
        · cases h
        · cases h
          simp at hc
          rw [hc, hb]
  · intro α dst src hd hs
    simp only [Int.toNat_ofNat] at hd hs ⊢
    exact memcpy_whole dst src n sz hpos hd hs

theorem C10_byteCount_exact_witness :
    (byteCount (2 ^ 31 - 1) 8 : Int) = (2 ^ 31 - 1) * ((8 : Nat) : Int)
      ∧ byteCount (2 ^ 31 - 1) 8 / 8 = ((2 : Int) ^ 31 - 1).toNat
      ∧ byteCount (2 ^ 31 - 1) 8 % 8 = 0 :=
  have h := C10_byteCount_exact (2 ^ 31 - 1) 8 (by decide) (by decide) (by decide)
  ⟨h.1, h.2.1, h.2.2.1⟩

end PydrobertKaldi
